import Mathlib

/-!
Verification of the go-updater installer (main.go) against its specification.

Strings are modelled as `List Char` (Go strings are byte sequences; every
string constant manipulated by the program is ASCII, and the byte-level
filter loop of `cleanVersionInput` breaks at the first byte of any
non-ASCII character, so the character-level model agrees with the
byte-level source on all inputs).
-/

/-- Convert a Lean string literal to the `List Char` representation. -/
def str (s : String) : List Char := s.data

/-- Go `unicode.IsSpace`: the White_Space code points tested by
`strings.TrimSpace` and `strings.Fields`. -/
def isSpace (c : Char) : Bool :=
  decide (c.toNat = 9 ∨ c.toNat = 10 ∨ c.toNat = 11 ∨ c.toNat = 12 ∨ c.toNat = 13 ∨
    c.toNat = 32 ∨ c.toNat = 133 ∨ c.toNat = 160 ∨ c.toNat = 5760 ∨
    (8192 ≤ c.toNat ∧ c.toNat ≤ 8202) ∨ c.toNat = 8232 ∨ c.toNat = 8233 ∨
    c.toNat = 8239 ∨ c.toNat = 8287 ∨ c.toNat = 12288)

/-- The character filter of `cleanVersionInput`: ASCII digits, lowercase
ASCII letters, and `.` (source: `(charByte >= '0' && charByte <= '9') ||
(charByte >= 'a' && charByte <= 'z') || charByte == '.'`). -/
def isAllowedVersionChar (c : Char) : Bool :=
  decide ((48 ≤ c.toNat ∧ c.toNat ≤ 57) ∨ (97 ≤ c.toNat ∧ c.toNat ≤ 122) ∨ c.toNat = 46)

/-- Go `strings.HasPrefix(s, "go")`. -/
def startsWithGo : List Char → Bool
  | a :: b :: _ => a == 'g' && b == 'o'
  | _ => false

/-- Go `strings.TrimSpace`: drop White_Space characters from both ends. -/
def trimSpace (l : List Char) : List Char :=
  ((l.dropWhile isSpace).reverse.dropWhile isSpace).reverse

/-- Accumulator worker for `fields` (the accumulator holds the current
word reversed). -/
def fieldsAux (cur : List Char) : List Char → List (List Char)
  | [] => if cur.isEmpty then [] else [cur.reverse]
  | c :: rest =>
    if isSpace c then
      if cur.isEmpty then fieldsAux [] rest
      else cur.reverse :: fieldsAux [] rest
    else fieldsAux (c :: cur) rest

/-- Go `strings.Fields`: split around maximal runs of white space,
producing no empty fields. -/
def fields (l : List Char) : List (List Char) := fieldsAux [] l

/-- Go `strings.Split(content, "\n")` (as iterated by `strings.SplitSeq`). -/
def splitLines : List Char → List (List Char)
  | [] => [[]]
  | c :: rest =>
    if c = '\n' then [] :: splitLines rest
    else
      match splitLines rest with
      | [] => [[c]]
      | l :: ls => (c :: l) :: ls

/-- The byte-retention loop of `cleanVersionInput` after the first two
bytes: keep allowed characters, `break` at the first disallowed one. -/
def keepAllowed : List Char → List Char
  | [] => []
  | c :: rest => if isAllowedVersionChar c then c :: keepAllowed rest else []

/-- Go `strings.Contains(s, pat)` (substring test). -/
def containsSub (pat s : List Char) : Bool := decide (pat <:+: s)

/-- `cleanVersionInput` from main.go: trim, take the first
whitespace-separated field, ensure the `go` prefix, then keep only
allowed characters after the two-byte prefix, truncating at the first
disallowed one. -/
def cleanVersionInput (versionInput : List Char) : List Char :=
  let v1 := trimSpace versionInput
  if v1 = [] then v1
  else
    let fs := fields v1
    let v2 := match fs with
      | [] => v1
      | f :: _ => f
    let v3 := if startsWithGo v2 then v2 else 'g' :: 'o' :: v2
    v3.take 2 ++ keepAllowed (v3.drop 2)

/-- The spec's `normalize` reference algorithm (§4.1), written from the
spec's words: trim surrounding whitespace (empty result returned
unchanged); take only the first whitespace-separated token; prepend the
2-character prefix when absent; retain digits, lowercase letters and `.`
after the prefix, stopping at the first disallowed character. -/
def normalizeSpec (input : List Char) : List Char :=
  let t := trimSpace input
  if t = [] then t
  else
    let tok := t.takeWhile (fun c => !isSpace c)
    let tok2 := if startsWithGo tok then tok else 'g' :: 'o' :: tok
    tok2.take 2 ++ (tok2.drop 2).takeWhile isAllowedVersionChar

/-- The token-selection loop of `parseGoVersionOutput`'s fallback: the
first field beginning with `go` whose normalization keeps the prefix and
is longer than the bare prefix is returned, others are skipped. -/
def fallbackScan : List (List Char) → Option (List Char)
  | [] => none
  | tok :: rest =>
    if startsWithGo tok then
      let v := cleanVersionInput tok
      if startsWithGo v && decide (2 < v.length) then some v else fallbackScan rest
    else fallbackScan rest

/-- `parseGoVersionOutput` from main.go; `none` models the
`unable to parse version` error return. -/
def parseGoVersionOutput (output : List Char) : Option (List Char) :=
  let fs := fields (trimSpace output)
  match fs with
  | _ :: _ :: third :: _ =>
    if startsWithGo third then some (cleanVersionInput third) else fallbackScan fs
  | _ => fallbackScan fs

/-- The fallback scan as claim C4 words it: return the first field
beginning with the `go` prefix, normalized, with no further condition. -/
def claimFallbackScan : List (List Char) → Option (List Char)
  | [] => none
  | tok :: rest =>
    if startsWithGo tok then some (cleanVersionInput tok) else claimFallbackScan rest

/-- The parse function exactly as claim C4 describes it (primary branch
identical to the source, fallback per `claimFallbackScan`). -/
def parseGoVersionClaim (output : List Char) : Option (List Char) :=
  let fs := fields (trimSpace output)
  match fs with
  | _ :: _ :: third :: _ =>
    if startsWithGo third then some (cleanVersionInput third) else claimFallbackScan fs
  | _ => claimFallbackScan fs

/-- The exact profile line written by `ensureUserPath`. -/
def pathLine : List Char := str "export PATH=$PATH:/usr/local/go/bin"

/-- The attribution comment line written before the profile line. -/
def profileComment : List Char := str "# Added by go-updater to expose Go binaries"

/-- The three-line block appended by `ensureUserPath` (three `Fprintln`
calls: blank separator, attribution comment, the PATH line). -/
def appendedBlock : List Char := '\n' :: (profileComment ++ '\n' :: (pathLine ++ ['\n']))

/-- `containsProfileLine` from main.go: some line of the content, after
trimming, equals the target exactly or mentions both the install
directory and the PATH-export keyword. -/
def containsProfileLine (content target : List Char) : Bool :=
  (splitLines content).any (fun line =>
    let t := trimSpace line
    t == target || (containsSub (str "/usr/local/go/bin") t && containsSub (str "export PATH") t))

/-- State of one candidate profile file, with the three per-file
operations the source distinguishes: `present` is whether `os.Stat`
succeeds (main.go:213), `readable` whether `os.ReadFile` succeeds
(main.go:202, e.g. false for an existing mode-0200 file), `writable`
whether `os.OpenFile(O_APPEND|O_WRONLY)` succeeds (main.go:214), and
`data` the on-disk content (meaningful only when present; read and open
outcomes are meaningful only for a present file). -/
structure FileState where
  present : Bool
  readable : Bool
  writable : Bool
  data : List Char
  deriving DecidableEq

/-- The per-file duplicate check performed by `ensureUserPath`'s first
loop: it consults a candidate only when `os.ReadFile` succeeds on it
(main.go:202), so an existing but unreadable file is skipped. -/
def fileSatisfied (f : FileState) : Bool :=
  f.present && f.readable && containsProfileLine f.data pathLine

/-- `ensureUserPath`'s second loop (main.go:211-229): find the first
candidate on which `os.Stat` succeeds — readable or not — open it for
append (an open failure returns that error, touching nothing) and append
the block. The buffered writes are modelled as the atomic append the
spec describes (§4.3: no partial-write recovery; append treated as
close to atomic). `none` when no candidate is present. -/
def ensureUserPathAppend : List FileState → Option (Except (List Char) Unit × List FileState)
  | [] => none
  | f :: rest =>
    if f.present then
      if f.writable then
        some (Except.ok (),
          (⟨f.present, f.readable, f.writable, f.data ++ appendedBlock⟩ : FileState) :: rest)
      else some (Except.error (str "open for append failed"), f :: rest)
    else (ensureUserPathAppend rest).map (fun r => (r.1, f :: r.2))

/-- `ensureUserPath` from main.go over the candidate profile files in
priority order (`[".profile"]` on Linux, four files on macOS; the model
is parametric in the candidate list). If some readable candidate already
satisfies `containsProfileLine`, nothing is written; otherwise the block
is appended to the first present candidate (its readability is not
consulted); otherwise the first candidate is created with mode 0644 —
hence readable and writable — holding the block. A failing create
(main.go:233-235) returns its error touching no file, so the model takes
the creation as succeeding, the only case that writes. -/
def ensureUserPath (fs : List FileState) : Except (List Char) Unit × List FileState :=
  if fs.any fileSatisfied then (Except.ok (), fs)
  else
    match ensureUserPathAppend fs with
    | some r => r
    | none =>
      match fs with
      | [] => (Except.ok (), [])
      | _ :: rest =>
        (Except.ok (), (⟨true, true, true, appendedBlock⟩ : FileState) :: rest)

/-- Outcomes of the external operations performed by `ensureSystemPath`
(temp-file creation, write to the temp file, privileged install into the
drop-in directory, privileged append to the global profile). -/
structure SysEnv where
  createTempOk : Bool
  writeOk : Bool
  installOk : Bool
  appendOk : Bool
  deriving DecidableEq

/-- Drop-in file content staged by `ensureSystemPath` for each platform. -/
def systemPathContent (darwin : Bool) : List Char :=
  if darwin then str "/usr/local/go/bin\n"
  else str "# /etc/profile.d/golang-path.sh\n# Added by go-updater\nexport PATH=\"$PATH:/usr/local/go/bin\"\n"

/-- `ensureSystemPath` from main.go, returning the function result and
whether the temporary staging file is still present on disk after the
return. The control flow is identical on both platforms: create temp,
write content (on write error: close and return, no `os.Remove`), try the
privileged install, on failure fall back to a privileged append, removing
the temp file on each of those three exits. -/
def ensureSystemPath (darwin : Bool) (e : SysEnv) : Except (List Char) Unit × Bool :=
  if e.createTempOk = false then (Except.error (str "create temp file"), false)
  else if e.writeOk = false then (Except.error (str "write temp file"), true)
  else if e.installOk then (Except.ok (), false)
  else if e.appendOk then (Except.ok (), false)
  else
    (Except.error
      (if darwin then str "failed to update /etc/paths.d or /etc/zprofile"
       else str "failed to update /etc/profile.d or /etc/profile"), false)

/-- Outcomes of the external operations performed by `downloadFile`:
destination-file creation, request construction, the HTTP round trip, its
status code, the body copy, and the bytes involved. -/
structure DlEnv where
  createOk : Bool
  reqOk : Bool
  connOk : Bool
  status : Nat
  copyOk : Bool
  body : List Char
  copiedOnFailure : List Char
  deriving DecidableEq

/-- `downloadFile` from main.go, returning the function result and the
state of the destination file after the return (`none`: not created;
`some data`: present with that content). `os.Create` runs first, so every
later exit leaves the created file on disk; a non-200 status returns an
error with the file still present and empty. -/
def downloadFile (d : DlEnv) : Except (List Char) Unit × Option (List Char) :=
  if d.createOk = false then (Except.error (str "create failed"), none)
  else if d.reqOk = false then (Except.error (str "new request failed"), some [])
  else if d.connOk = false then (Except.error (str "request failed"), some [])
  else if d.status ≠ 200 then (Except.error (str "download failed: non-200 status"), some [])
  else if d.copyOk = false then (Except.error (str "copy failed"), some d.copiedOnFailure)
  else (Except.ok (), some d.body)

/-- `resolveTarget` from main.go: allow-list of two OS names, three
architecture names, and two architecture aliases mapped to canonical
names. -/
def resolveTarget (goos goarch : List Char) : Except (List Char) (List Char × List Char) :=
  if goos = str "linux" ∨ goos = str "darwin" then
    if goarch = str "amd64" ∨ goarch = str "arm64" ∨ goarch = str "386" then
      Except.ok (goos, goarch)
    else if goarch = str "x86_64" then Except.ok (goos, str "amd64")
    else if goarch = str "aarch64" then Except.ok (goos, str "arm64")
    else Except.error (str "unsupported arch: " ++ goarch)
  else Except.error (str "unsupported OS: " ++ goos)

/-- Observable external operations performed by `main`, in program order.
`mkdirDownloadDir` records whether the `os.MkdirAll` call created the
directory (true exactly when it did not already exist); the purely
observational operations (stat, probe, plan printing, verification run)
are recorded so that ordering claims can be stated. -/
inductive Effect where
  | fetchLatest
  | probeInstalled
  | mkdirDownloadDir (dir : List Char) (created : Bool)
  | statArchive (tarPath : List Char)
  | printPlan (version goos goarch url tarPath : List Char) (noPath system : Bool)
  | download (url tarPath : List Char)
  | removeOldGo
  | extractArchive (tarPath : List Char)
  | ensureUserPathFiles
  | ensureSystemPathFiles
  | setProcessPath
  | verifyRun
  deriving DecidableEq

/-- How a run of `main` ends: normal completion, the up-to-date early
return, the dry-run early return, or `must`-triggered exit with the
context string passed to `must`. -/
inductive MainResult where
  | completed
  | upToDate
  | dryRun
  | fatal (context : List Char)
  deriving DecidableEq

/-- The command-line flags of main.go. -/
structure Flags where
  version : List Char
  dryRun : Bool
  noPathUpdate : Bool
  system : Bool
  downloadDir : List Char
  deriving DecidableEq

/-- Results of the external operations `main` consults: the latest-version
fetch (`none`: network error), the installed-version probe (`none`: no
parseable installation), the runtime platform strings, the temp
directory, the download-directory state, presence of the archive file,
and success of each subsequent step. -/
structure Env where
  latest : Option (List Char)
  installed : Option (List Char)
  goos : List Char
  goarch : List Char
  tempDir : List Char
  mkdirOk : Bool
  dlDirExists : Bool
  tarExists : Bool
  downloadOk : Bool
  rmOk : Bool
  extractOk : Bool
  userPathOk : Bool
  verifyOk : Bool
  deriving DecidableEq

/-- The PATH-update segment of `main` (source lines 85–94): the user
profile update is a hard failure, the optional system-wide update is
warn-only, then the process PATH variable is extended. Returns the
effects and whether the segment succeeded. -/
def pathUpdateStep (f : Flags) (e : Env) : List Effect × Bool :=
  if f.noPathUpdate then ([], true)
  else if e.userPathOk = false then ([Effect.ensureUserPathFiles], false)
  else
    ((if f.system then
        [Effect.ensureUserPathFiles, Effect.ensureSystemPathFiles, Effect.setProcessPath]
      else [Effect.ensureUserPathFiles, Effect.setProcessPath]), true)

/-- The download-and-install segment of `main` (source lines 69–106):
stat of the archive path, download only when absent, privileged removal
of the previous tree, extraction, PATH updates and verification. -/
def installStep (f : Flags) (e : Env) (url tarPath : List Char) : List Effect × MainResult :=
  let dlStep : List Effect × Bool :=
    if e.tarExists then ([], true) else ([Effect.download url tarPath], e.downloadOk)
  let t1 := Effect.statArchive tarPath :: dlStep.1
  if dlStep.2 = false then (t1, MainResult.fatal (str "download archive"))
  else
    let t2 := t1 ++ [Effect.removeOldGo]
    if e.rmOk = false then (t2, MainResult.fatal (str "remove previous /usr/local/go"))
    else
      let t3 := t2 ++ [Effect.extractArchive tarPath]
      if e.extractOk = false then (t3, MainResult.fatal (str "extract archive to /usr/local"))
      else
        let p := pathUpdateStep f e
        let t4 := t3 ++ p.1
        if p.2 = false then (t4, MainResult.fatal (str "ensure user PATH in ~/.profile"))
        else
          let t5 := t4 ++ [Effect.verifyRun]
          if e.verifyOk = false then (t5, MainResult.fatal (str "verify go version"))
          else (t5, MainResult.completed)

/-- The platform-dependent segment of `main` (source lines 45–67):
platform resolution, archive naming, download-directory creation, and
the dry-run early return; otherwise it continues with `installStep`. -/
def platformStep (f : Flags) (e : Env) (version : List Char) : List Effect × MainResult :=
  match resolveTarget e.goos e.goarch with
  | Except.error _ => ([], MainResult.fatal (str "resolve target platform"))
  | Except.ok (goos, goarch) =>
    let tarName := version ++ str "." ++ goos ++ str "-" ++ goarch ++ str ".tar.gz"
    let url := str "https://go.dev/dl/" ++ tarName
    let dlDir := if f.downloadDir = [] then e.tempDir else f.downloadDir
    let t1 := [Effect.mkdirDownloadDir dlDir (!e.dlDirExists)]
    if e.mkdirOk = false then (t1, MainResult.fatal (str "create download dir"))
    else
      let tarPath := dlDir ++ '/' :: tarName
      if f.dryRun then
        (t1 ++ [Effect.printPlan version goos goarch url tarPath f.noPathUpdate f.system],
         MainResult.dryRun)
      else
        let r := installStep f e url tarPath
        (t1 ++ r.1, r.2)

/-- The version-resolution segment of `main` (source lines 29–37): fetch
the latest version over the network only when the flag is blank,
otherwise sanitize the user-supplied text. -/
def resolveVersionStep (f : Flags) (e : Env) : List Effect × Option (List Char) :=
  if trimSpace f.version = [] then ([Effect.fetchLatest], e.latest)
  else ([], some (cleanVersionInput f.version))

/-- `main` from main.go as a trace of `Effect`s plus a `MainResult`,
composed from the segment functions in source order: version resolution,
the installed-version probe with its up-to-date early return, and the
platform-dependent remainder. -/
def mainRun (f : Flags) (e : Env) : List Effect × MainResult :=
  match resolveVersionStep f e with
  | (vTrace, none) => (vTrace, MainResult.fatal (str "fetch latest version"))
  | (vTrace, some version) =>
    if e.installed = some version then (vTrace ++ [Effect.probeInstalled], MainResult.upToDate)
    else
      let r := platformStep f e version
      (vTrace ++ Effect.probeInstalled :: r.1, r.2)

/-- Effects that create, modify or remove a file or directory. The
directory-creation effect counts exactly when `os.MkdirAll` actually
created the directory; the profile-update effects write files in the
non-satisfied case and are counted conservatively. -/
def isMutation : Effect → Bool
  | Effect.mkdirDownloadDir _ created => created
  | Effect.download _ _ => true
  | Effect.removeOldGo => true
  | Effect.extractArchive _ => true
  | Effect.ensureUserPathFiles => true
  | Effect.ensureSystemPathFiles => true
  | _ => false

/-- Effects that perform a network call. -/
def isNetwork : Effect → Bool
  | Effect.fetchLatest => true
  | Effect.download _ _ => true
  | _ => false

/-- Effects that download the archive. -/
def isDownload : Effect → Bool
  | Effect.download _ _ => true
  | _ => false

/-- Plan-printing effects. -/
def isPlanPrint : Effect → Bool
  | Effect.printPlan _ _ _ _ _ _ _ => true
  | _ => false

/-- Download-directory creation effects. -/
def isMkdir : Effect → Bool
  | Effect.mkdirDownloadDir _ _ => true
  | _ => false

/-- Whether `resolveTarget` rejects the platform pair. -/
def resolveTargetErrs (goos goarch : List Char) : Bool :=
  match resolveTarget goos goarch with
  | Except.error _ => true
  | Except.ok _ => false

-- quick sanity examples against the repository's test vectors
example : cleanVersionInput (str "go1.25.1") = str "go1.25.1" := by decide
example : cleanVersionInput (str "1.25.1") = str "go1.25.1" := by decide
example : cleanVersionInput (str "go1.25.1 time 2025-08-27T15:49:40Z") = str "go1.25.1" := by decide
example : cleanVersionInput (str "   go1.22.6   ") = str "go1.22.6" := by decide
example : cleanVersionInput (str "1.24beta1") = str "go1.24beta1" := by decide
example : cleanVersionInput (str "go1.25.1!") = str "go1.25.1" := by decide
example : cleanVersionInput (str "go") = str "go" := by decide
example : parseGoVersionOutput (str "go version go1.22.6 linux/amd64") = some (str "go1.22.6") := by decide
example : parseGoVersionOutput (str "go version go1.24beta1 linux/amd64") = some (str "go1.24beta1") := by decide
example : parseGoVersionOutput (str "random text go1.20.5 something") = some (str "go1.20.5") := by decide
example : parseGoVersionOutput (str "totally unrelated output") = none := by decide
example : containsProfileLine (str "export PATH=$PATH:/usr/local/go/bin\n") pathLine = true := by decide
example : containsProfileLine (str "  \texport PATH=$PATH:/usr/local/go/bin  \n") pathLine = true := by decide
example : containsProfileLine (str "export PATH=/usr/local/go/bin:$PATH\n") pathLine = true := by decide
example : containsProfileLine (str "# nothing relevant\nexport PATH=$PATH:/usr/local/bin\n") pathLine = false := by decide

/-! ## Helper lemmas about characters, trimming, fields and filtering -/

theorem allowed_not_space (c : Char) (h : isAllowedVersionChar c = true) : isSpace c = false := by
  simp only [isAllowedVersionChar, decide_eq_true_eq] at h
  simp only [isSpace, decide_eq_false_iff_not]
  omega

theorem dropWhile_head_false (p : Char → Bool) :
    ∀ (l : List Char) (c : Char) (rest : List Char), l.dropWhile p = c :: rest → p c = false := by
  intro l
  induction l with
  | nil => intro c rest h; simp at h
  | cons a t ih =>
    intro c rest h
    by_cases hp : p a = true
    · rw [List.dropWhile_cons, if_pos hp] at h
      exact ih c rest h
    · rw [List.dropWhile_cons, if_neg hp] at h
      cases h
      simpa using hp

theorem dropWhile_isSuffix (p : Char → Bool) : ∀ l : List Char, l.dropWhile p <:+ l := by
  intro l
  induction l with
  | nil => exact List.nil_suffix
  | cons a t ih =>
    by_cases hp : p a = true
    · rw [List.dropWhile_cons, if_pos hp]
      exact ih.trans (List.suffix_cons a t)
    · rw [List.dropWhile_cons, if_neg hp]

theorem dropWhile_eq_self_of_all (p : Char → Bool) (l : List Char)
    (h : ∀ c ∈ l, p c = false) : l.dropWhile p = l := by
  cases l with
  | nil => rfl
  | cons a t => rw [List.dropWhile_cons, if_neg (by simp [h a (by simp)])]

theorem trimSpace_eq_self (l : List Char) (h : ∀ c ∈ l, isSpace c = false) : trimSpace l = l := by
  unfold trimSpace
  rw [dropWhile_eq_self_of_all _ _ h,
    dropWhile_eq_self_of_all _ _ (fun c hc => h c (by simpa using hc)), List.reverse_reverse]

theorem trimSpace_head_not_space (l : List Char) (c : Char) (rest : List Char)
    (h : trimSpace l = c :: rest) : isSpace c = false := by
  unfold trimSpace at h
  have h2 : (l.dropWhile isSpace).reverse.dropWhile isSpace = (c :: rest).reverse := by
    rw [← h, List.reverse_reverse]
  obtain ⟨pre, hpre⟩ := dropWhile_isSuffix isSpace (l.dropWhile isSpace).reverse
  rw [h2] at hpre
  have h3 : l.dropWhile isSpace = c :: (rest ++ pre.reverse) := by
    have h4 := congrArg List.reverse hpre
    simpa [List.reverse_append] using h4.symm
  exact dropWhile_head_false isSpace l c _ h3

theorem mem_keepAllowed (l : List Char) (c : Char) (h : c ∈ keepAllowed l) :
    isAllowedVersionChar c = true := by
  induction l with
  | nil => simp [keepAllowed] at h
  | cons a t ih =>
    by_cases ha : isAllowedVersionChar a = true
    · rw [keepAllowed, if_pos ha] at h
      rcases List.mem_cons.mp h with h1 | h2
      · rwa [h1]
      · exact ih h2
    · rw [keepAllowed, if_neg ha] at h
      simp at h

theorem keepAllowed_eq_takeWhile (l : List Char) :
    keepAllowed l = l.takeWhile isAllowedVersionChar := by
  induction l with
  | nil => rfl
  | cons a t ih =>
    by_cases ha : isAllowedVersionChar a = true
    · simp [keepAllowed, List.takeWhile_cons, ha, ih]
    · simp [keepAllowed, List.takeWhile_cons, ha]

theorem keepAllowed_eq_self (l : List Char) (h : ∀ c ∈ l, isAllowedVersionChar c = true) :
    keepAllowed l = l := by
  induction l with
  | nil => rfl
  | cons a t ih =>
    rw [keepAllowed, if_pos (h a (by simp)), ih (fun c hc => h c (by simp [hc]))]

theorem takeWhile_eq_self_of_all (p : Char → Bool) (l : List Char)
    (h : ∀ c ∈ l, p c = true) : l.takeWhile p = l := by
  induction l with
  | nil => rfl
  | cons a t ih =>
    rw [List.takeWhile_cons, if_pos (h a (by simp)), ih (fun c hc => h c (by simp [hc]))]

theorem dropWhile_eq_nil_of_all (p : Char → Bool) (l : List Char)
    (h : ∀ c ∈ l, p c = true) : l.dropWhile p = [] := by
  induction l with
  | nil => rfl
  | cons a t ih =>
    rw [List.dropWhile_cons, if_pos (h a (by simp))]
    exact ih (fun c hc => h c (by simp [hc]))

theorem fieldsAux_cur_ne_nil (l : List Char) : ∀ cur : List Char, cur ≠ [] →
    fieldsAux cur l =
      (cur.reverse ++ l.takeWhile (fun c => !isSpace c)) ::
        fieldsAux [] (l.dropWhile (fun c => !isSpace c)) := by
  induction l with
  | nil =>
    intro cur hc
    simp [fieldsAux, List.isEmpty_iff, hc]
  | cons a t ih =>
    intro cur hc
    by_cases ha : isSpace a = true
    · have hcur : cur.isEmpty = false := by simpa [List.isEmpty_iff] using hc
      rw [show fieldsAux cur (a :: t) = cur.reverse :: fieldsAux [] t from by
        simp [fieldsAux, ha, hcur]]
      rw [List.takeWhile_cons, if_neg (by simp [ha]), List.dropWhile_cons,
        if_neg (by simp [ha])]
      rw [show fieldsAux [] (a :: t) = fieldsAux [] t from by simp [fieldsAux, ha]]
      simp
    · rw [show fieldsAux cur (a :: t) = fieldsAux (a :: cur) t from by simp [fieldsAux, ha]]
      rw [ih (a :: cur) (by simp)]
      rw [List.takeWhile_cons, if_pos (by simp [ha]), List.dropWhile_cons,
        if_pos (by simp [ha])]
      simp

theorem fields_cons_not_space (a : Char) (t : List Char) (ha : isSpace a = false) :
    fields (a :: t) =
      (a :: t.takeWhile (fun c => !isSpace c)) ::
        fieldsAux [] (t.dropWhile (fun c => !isSpace c)) := by
  unfold fields
  rw [show fieldsAux [] (a :: t) = fieldsAux [a] t from by simp [fieldsAux, ha]]
  rw [fieldsAux_cur_ne_nil t [a] (by simp)]
  simp

theorem fields_no_space (l : List Char) (hne : l ≠ [])
    (h : ∀ c ∈ l, isSpace c = false) : fields l = [l] := by
  cases l with
  | nil => exact absurd rfl hne
  | cons a t =>
    rw [fields_cons_not_space a t (h a (by simp))]
    rw [takeWhile_eq_self_of_all _ t (fun c hc => by simp [h c (by simp [hc])])]
    rw [dropWhile_eq_nil_of_all _ t (fun c hc => by simp [h c (by simp [hc])])]
    rfl

theorem take_two_cons_cons (a b : Char) (l : List Char) : List.take 2 (a :: b :: l) = [a, b] :=
  rfl

theorem drop_two_cons_cons (a b : Char) (l : List Char) : List.drop 2 (a :: b :: l) = l :=
  rfl

theorem startsWithGo_shape (v : List Char) (h : startsWithGo v = true) :
    ∃ t, v = 'g' :: 'o' :: t := by
  cases v with
  | nil => simp [startsWithGo] at h
  | cons a t =>
    cases t with
    | nil => simp [startsWithGo] at h
    | cons b t2 =>
      simp only [startsWithGo, Bool.and_eq_true, beq_iff_eq] at h
      exact ⟨t2, by rw [h.1, h.2]⟩

/-- The result of the prefix-ensure and byte-retention steps of
`cleanVersionInput` always is the two-character prefix followed by
allowed characters only. -/
theorem prefixFilter_shape (v2 : List Char) :
    ∃ w, (if startsWithGo v2 then v2 else 'g' :: 'o' :: v2).take 2 ++
        keepAllowed ((if startsWithGo v2 then v2 else 'g' :: 'o' :: v2).drop 2) =
        'g' :: 'o' :: w ∧ ∀ c ∈ w, isAllowedVersionChar c = true := by
  by_cases hg : startsWithGo v2 = true
  · obtain ⟨t, rfl⟩ := startsWithGo_shape v2 hg
    exact ⟨keepAllowed t,
      by rw [if_pos hg, take_two_cons_cons, drop_two_cons_cons]; rfl,
      fun c hc => mem_keepAllowed t c hc⟩
  · refine ⟨keepAllowed v2, ?_, fun c hc => mem_keepAllowed v2 c hc⟩
    rw [if_neg hg, take_two_cons_cons, drop_two_cons_cons]
    rfl

/-- Shape of every `cleanVersionInput` output on inputs that do not trim
to the empty string: the prefix followed by allowed characters only. -/
theorem cleanVersionInput_shape (input : List Char) (h : trimSpace input ≠ []) :
    ∃ w, cleanVersionInput input = 'g' :: 'o' :: w ∧
      ∀ c ∈ w, isAllowedVersionChar c = true := by
  unfold cleanVersionInput
  rw [if_neg h]
  exact prefixFilter_shape _

theorem cleanVersionInput_of_trim_nil (input : List Char) (h : trimSpace input = []) :
    cleanVersionInput input = [] := by
  unfold cleanVersionInput
  rw [if_pos h, h]

/-- Well-formedness predicate of claim C1: the output begins with the
two-character prefix and holds only allowed characters after it. -/
def wellFormedToken (l : List Char) : Prop :=
  l.take 2 = ['g', 'o'] ∧ ∀ c ∈ l.drop 2, isAllowedVersionChar c = true

instance (l : List Char) : Decidable (wellFormedToken l) := by
  unfold wellFormedToken
  infer_instance

/-- C1 counterexample: the claim ranges over every input string, but the
empty input trims to the empty string and `cleanVersionInput` returns it
unchanged, so the output does not begin with the `go` prefix. -/
theorem cleanVersionInput_empty_not_wellFormed : ¬ wellFormedToken (cleanVersionInput []) := by
  decide

/-- C1 (amended): for every input whose whitespace-trimmed form is
nonempty, `cleanVersionInput` returns a string beginning with the
two-character prefix `go` followed only by ASCII digits, lowercase ASCII
letters and `.`. -/
theorem cleanVersionInput_wellFormed (input : List Char) (h : trimSpace input ≠ []) :
    wellFormedToken (cleanVersionInput input) := by
  obtain ⟨w, hw, hall⟩ := cleanVersionInput_shape input h
  rw [hw]
  exact ⟨rfl, hall⟩

/-- Witness for the C1 theorem at the concrete input `" 1.25.1 "`. -/
theorem cleanVersionInput_wellFormed_witness :
    trimSpace (str " 1.25.1 ") ≠ [] ∧ wellFormedToken (cleanVersionInput (str " 1.25.1 ")) :=
  ⟨by decide, cleanVersionInput_wellFormed (str " 1.25.1 ") (by decide)⟩

/-- C8: `cleanVersionInput` is idempotent on every input string. -/
theorem cleanVersionInput_idempotent (input : List Char) :
    cleanVersionInput (cleanVersionInput input) = cleanVersionInput input := by
  by_cases h : trimSpace input = []
  · rw [cleanVersionInput_of_trim_nil input h]
    exact cleanVersionInput_of_trim_nil [] (by decide)
  · obtain ⟨w, hw, hall⟩ := cleanVersionInput_shape input h
    rw [hw]
    have hns : ∀ c ∈ ('g' :: 'o' :: w), isSpace c = false := by
      intro c hc
      rcases List.mem_cons.mp hc with h1 | hc2
      · rw [h1]; decide
      rcases List.mem_cons.mp hc2 with h2 | hc3
      · rw [h2]; decide
      · exact allowed_not_space c (hall c hc3)
    have htrim : trimSpace ('g' :: 'o' :: w) = 'g' :: 'o' :: w := trimSpace_eq_self _ hns
    have hfields : fields ('g' :: 'o' :: w) = ['g' :: 'o' :: w] :=
      fields_no_space _ (by simp) hns
    have hg : startsWithGo ('g' :: 'o' :: w) = true := by simp [startsWithGo]
    unfold cleanVersionInput
    rw [htrim, if_neg (by simp), hfields]
    simp only [hg, if_true, take_two_cons_cons, drop_two_cons_cons,
      keepAllowed_eq_self w hall]
    rfl

/-- C7: `cleanVersionInput` coincides with the reference normalization
algorithm written from the spec's words, on every input. -/
theorem cleanVersionInput_eq_normalizeSpec (input : List Char) :
    cleanVersionInput input = normalizeSpec input := by
  by_cases h : trimSpace input = []
  · unfold cleanVersionInput normalizeSpec
    rw [if_pos h, if_pos h]
  · obtain ⟨a, t, hat⟩ : ∃ a t, trimSpace input = a :: t := by
      cases htr : trimSpace input with
      | nil => exact absurd htr h
      | cons a t => exact ⟨a, t, rfl⟩
    have hna : isSpace a = false := trimSpace_head_not_space input a t hat
    unfold cleanVersionInput normalizeSpec
    rw [if_neg h, if_neg h, hat, fields_cons_not_space a t hna]
    rw [List.takeWhile_cons, if_pos (by simp [hna])]
    simp only [keepAllowed_eq_takeWhile]

/-! ## Claim C4: parsing of the version-probe output -/

/-- The acceptance test applied by `parseGoVersionOutput`'s fallback loop
to each field. -/
def goodFallbackTok (tok : List Char) : Bool :=
  startsWithGo tok &&
    (startsWithGo (cleanVersionInput tok) && decide (2 < (cleanVersionInput tok).length))

theorem fallbackScan_eq_find (fs : List (List Char)) :
    fallbackScan fs = (fs.find? goodFallbackTok).map cleanVersionInput := by
  induction fs with
  | nil => rfl
  | cons tok rest ih =>
    by_cases h1 : startsWithGo tok = true
    · by_cases h2 : (startsWithGo (cleanVersionInput tok) &&
          decide (2 < (cleanVersionInput tok).length)) = true
      · have hg : goodFallbackTok tok = true := by
          simp only [goodFallbackTok, h1, h2, Bool.and_self]
        rw [List.find?_cons_of_pos _ hg]
        simp only [fallbackScan, h1, if_true, h2, Option.map_some']
      · have hg : goodFallbackTok tok = false := by
          simp only [goodFallbackTok, h1, h2, Bool.true_and]
        rw [List.find?_cons_of_neg _ (by simp [hg])]
        simp only [fallbackScan, h1, if_true]
        rw [if_neg (by simp [h2]), ih]
    · have hg : goodFallbackTok tok = false := by
        simp only [goodFallbackTok]
        simp [Bool.eq_false_iff.mpr h1]
      rw [List.find?_cons_of_neg _ (by simp [hg])]
      simp only [fallbackScan]
      rw [if_neg h1, ih]

/-- C4 counterexample: on the probe output `"go"` the claim's reading
(`parseGoVersionClaim`, fallback returns the first field beginning with
the prefix, normalized) yields `go`, but the source's fallback also
requires the normalized token to be longer than the bare prefix, so
`parseGoVersionOutput` fails. -/
theorem parseGoVersionOutput_claim_counterexample :
    parseGoVersionClaim (str "go") = some (str "go") ∧
      parseGoVersionOutput (str "go") = none := by
  exact ⟨by decide, by decide⟩

/-- C4 (amended): `parseGoVersionOutput` returns the normalized third
whitespace-separated field when that field begins with `go`; when the
third field is absent or lacks the prefix, it returns the normalization
of the first field that begins with `go` and whose normalization keeps
the prefix and extends beyond it, and it fails exactly when no field
passes that test. -/
theorem parseGoVersionOutput_characterization (output : List Char) :
    (∀ a b third rest, fields (trimSpace output) = a :: b :: third :: rest →
        startsWithGo third = true →
        parseGoVersionOutput output = some (cleanVersionInput third)) ∧
    ((∀ a b third rest, fields (trimSpace output) = a :: b :: third :: rest →
        startsWithGo third = false) →
      parseGoVersionOutput output =
        ((fields (trimSpace output)).find? goodFallbackTok).map cleanVersionInput) := by
  constructor
  · intro a b third rest hf hg
    unfold parseGoVersionOutput
    rw [hf]
    simp [hg]
  · intro hno
    unfold parseGoVersionOutput
    cases hf : fields (trimSpace output) with
    | nil => simp only [fallbackScan_eq_find]
    | cons x1 t1 =>
      cases t1 with
      | nil => simp only [fallbackScan_eq_find]
      | cons x2 t2 =>
        cases t2 with
        | nil => simp only [fallbackScan_eq_find]
        | cons x3 t3 =>
          dsimp only
          rw [if_neg (by simp [hno x1 x2 x3 t3 hf]), fallbackScan_eq_find]

/-- Witness for the C4 theorem on the typical probe output. -/
theorem parseGoVersionOutput_characterization_witness :
    parseGoVersionOutput (str "go version go1.22.6 linux/amd64") = some (str "go1.22.6") := by
  have h := (parseGoVersionOutput_characterization (str "go version go1.22.6 linux/amd64")).1
    (str "go") (str "version") (str "go1.22.6") [str "linux/amd64"] (by decide) (by decide)
  rw [h]
  decide

/-! ## Claim C9: the profile-line membership check -/

/-- C9: `containsProfileLine` holds exactly when some line of the
content, after trimming surrounding whitespace, equals the target line
or mentions both the installation directory `/usr/local/go/bin` and the
keyword `export PATH`. -/
theorem containsProfileLine_iff (content target : List Char) :
    containsProfileLine content target = true ↔
      ∃ line ∈ splitLines content,
        trimSpace line = target ∨
          ((str "/usr/local/go/bin") <:+: trimSpace line ∧
            (str "export PATH") <:+: trimSpace line) := by
  unfold containsProfileLine
  rw [List.any_eq_true]
  constructor
  · rintro ⟨line, hmem, hline⟩
    refine ⟨line, hmem, ?_⟩
    simp only [containsSub, Bool.or_eq_true, beq_iff_eq, Bool.and_eq_true,
      decide_eq_true_eq] at hline
    exact hline
  · rintro ⟨line, hmem, hline⟩
    refine ⟨line, hmem, ?_⟩
    simp only [containsSub, Bool.or_eq_true, beq_iff_eq, Bool.and_eq_true,
      decide_eq_true_eq]
    exact hline

/-! ## Claim C2: idempotence of the user-profile PATH update -/

theorem splitLines_ne_nil (l : List Char) : splitLines l ≠ [] := by
  cases l with
  | nil => simp [splitLines]
  | cons c rest =>
    by_cases h : c = '\n'
    · simp [splitLines, h]
    · simp only [splitLines, if_neg h]
      cases splitLines rest with
      | nil => simp
      | cons a b => simp

theorem splitLines_append (a b : List Char) :
    splitLines (a ++ '\n' :: b) = splitLines a ++ splitLines b := by
  induction a with
  | nil => simp [splitLines]
  | cons c rest ih =>
    by_cases h : c = '\n'
    · rw [List.cons_append]
      rw [show splitLines (c :: (rest ++ '\n' :: b)) = [] :: splitLines (rest ++ '\n' :: b)
        from by simp [splitLines, h]]
      rw [show splitLines (c :: rest) = [] :: splitLines rest from by simp [splitLines, h]]
      rw [ih, List.cons_append]
    · rw [List.cons_append]
      cases hsr : splitLines rest with
      | nil => exact absurd hsr (splitLines_ne_nil rest)
      | cons l ls =>
        rw [show splitLines (c :: (rest ++ '\n' :: b)) =
            match splitLines (rest ++ '\n' :: b) with
            | [] => [[c]]
            | l :: ls => (c :: l) :: ls from by simp [splitLines, h]]
        rw [show splitLines (c :: rest) =
            match splitLines rest with
            | [] => [[c]]
            | l :: ls => (c :: l) :: ls from by simp [splitLines, h]]
        rw [ih, hsr]
        simp

theorem containsProfileLine_append_block (d : List Char) :
    containsProfileLine (d ++ appendedBlock) pathLine = true := by
  unfold containsProfileLine appendedBlock
  rw [splitLines_append, List.any_append]
  have h2 : (splitLines (profileComment ++ '\n' :: (pathLine ++ ['\n']))).any
      (fun line =>
        let t := trimSpace line
        t == pathLine ||
          (containsSub (str "/usr/local/go/bin") t && containsSub (str "export PATH") t)) =
      true := by decide
  rw [h2, Bool.or_true]

/-- A file that was readable before the append still passes the
duplicate check afterwards: the appended block ends in the exact target
line. -/
theorem fileSatisfied_append (f : FileState) (hp : f.present = true)
    (hr : f.readable = true) :
    fileSatisfied ⟨f.present, f.readable, f.writable, f.data ++ appendedBlock⟩ = true := by
  simp [fileSatisfied, hp, hr, containsProfileLine_append_block]

/-- Outcome analysis of the append loop when every present file is
readable: either it changes no file (the open-for-append failure), or
some file of the result now passes the readable duplicate check. -/
theorem ensureUserPathAppend_cases (fs : List FileState)
    (hyp : ∀ f ∈ fs, f.present = true → f.readable = true) :
    ∀ r, ensureUserPathAppend fs = some r →
      r.2 = fs ∨ r.2.any fileSatisfied = true := by
  induction fs with
  | nil => intro r h; simp [ensureUserPathAppend] at h
  | cons f rest ih =>
    intro r h
    by_cases hp : f.present = true
    · by_cases hw : f.writable = true
      · rw [show ensureUserPathAppend (f :: rest) =
            some (Except.ok (),
              (⟨f.present, f.readable, f.writable, f.data ++ appendedBlock⟩ : FileState) ::
                rest) from by simp [ensureUserPathAppend, hp, hw]] at h
        simp only [Option.some.injEq] at h
        subst h
        right
        have hr := hyp f (by simp) hp
        simp [List.any_cons, fileSatisfied_append f hp hr]
      · rw [show ensureUserPathAppend (f :: rest) =
            some (Except.error (str "open for append failed"), f :: rest) from by
              simp [ensureUserPathAppend, hp, hw]] at h
        simp only [Option.some.injEq] at h
        subst h
        left
        rfl
    · rw [show ensureUserPathAppend (f :: rest) =
          (ensureUserPathAppend rest).map (fun r => (r.1, f :: r.2)) from by
            simp [ensureUserPathAppend, hp]] at h
      cases hrec : ensureUserPathAppend rest with
      | none => rw [hrec] at h; simp at h
      | some r2 =>
        rw [hrec] at h
        simp only [Option.map_some', Option.some.injEq] at h
        subst h
        rcases ih (fun g hg => hyp g (List.mem_cons_of_mem f hg)) r2 hrec with h1 | h1
        · left
          simp [h1]
        · right
          simp [List.any_cons, h1]

theorem ensureUserPath_of_any (fs : List FileState) (h : fs.any fileSatisfied = true) :
    ensureUserPath fs = (Except.ok (), fs) := by
  unfold ensureUserPath
  rw [if_pos h]

/-- The line of claim C2's example: a semantically equivalent but
differently-phrased PATH export. -/
def altPathLine : List Char := str "export PATH=/usr/local/go/bin:$PATH"

/-- An existing profile file with mode 0200: `os.Stat` succeeds,
`os.ReadFile` fails, `os.OpenFile(O_APPEND|O_WRONLY)` succeeds; its
content is already the differently-phrased equivalent export line. -/
def unreadableProfile : FileState :=
  ⟨true, false, true, str "export PATH=/usr/local/go/bin:$PATH"⟩

/-- C2 counterexample: from the starting state of one existing, writable
but unreadable candidate that already holds an equivalent export line,
the duplicate check — gated on `os.ReadFile` (main.go:202) — never sees
the file while the append loop — gated on `os.Stat` (main.go:213) —
selects it, so the first call modifies the file and the second call
appends the block again: the second call does not leave every file
unchanged, and the semantically satisfied file is not recognized. -/
theorem ensureUserPath_unreadable_counterexample :
    (ensureUserPath (ensureUserPath [unreadableProfile]).2).2 ≠
        (ensureUserPath [unreadableProfile]).2 ∧
      (ensureUserPath [unreadableProfile]).2 ≠ [unreadableProfile] := by
  exact ⟨by decide, by decide⟩

/-- C2 (amended): when every present candidate file is readable, running
`ensureUserPath` twice leaves every file unchanged after the second
call; and whenever some present and readable candidate has a line that
trims to the differently-phrased export
`export PATH=/usr/local/go/bin:$PATH`, the call modifies no file at all
(so neither call of a pair does). An existing candidate that cannot be
read defeats the duplicate check while remaining the append target, and
is appended to on every call. -/
theorem ensureUserPath_idempotent_and_equiv :
    (∀ fs : List FileState, (∀ f ∈ fs, f.present = true → f.readable = true) →
      (ensureUserPath (ensureUserPath fs).2).2 = (ensureUserPath fs).2) ∧
    (∀ (fs : List FileState) (f : FileState), f ∈ fs → f.present = true →
      f.readable = true → (∃ l ∈ splitLines f.data, trimSpace l = altPathLine) →
      (ensureUserPath fs).2 = fs) := by
  constructor
  · intro fs hyp
    by_cases h : fs.any fileSatisfied = true
    · rw [ensureUserPath_of_any fs h]
      dsimp only
      rw [ensureUserPath_of_any fs h]
    · cases hab : ensureUserPathAppend fs with
      | some r =>
        have hfs : ensureUserPath fs = r := by
          unfold ensureUserPath
          rw [if_neg h, hab]
        rcases ensureUserPathAppend_cases fs hyp r hab with h1 | h1
        · rw [hfs, h1, hfs, h1]
        · rw [hfs, ensureUserPath_of_any r.2 h1]
      | none =>
        cases fs with
        | nil => decide
        | cons x rest =>
          have hfs : ensureUserPath (x :: rest) =
              (Except.ok (), (⟨true, true, true, appendedBlock⟩ : FileState) :: rest) := by
            unfold ensureUserPath
            rw [if_neg h, hab]
          have hsat : ((⟨true, true, true, appendedBlock⟩ : FileState) :: rest).any
              fileSatisfied = true := by
            simp only [List.any_cons, Bool.or_eq_true]
            left
            decide
          rw [hfs]
          dsimp only
          rw [ensureUserPath_of_any _ hsat]
  · intro fs f hmem hp hr ⟨l, hl, hlt⟩
    have hsat : fs.any fileSatisfied = true := by
      rw [List.any_eq_true]
      refine ⟨f, hmem, ?_⟩
      simp only [fileSatisfied, hp, hr, Bool.true_and, Bool.and_true, containsProfileLine]
      rw [List.any_eq_true]
      refine ⟨l, hl, ?_⟩
      simp only [hlt]
      decide
    rw [ensureUserPath_of_any fs hsat]

/-- Witness for the C2 theorem: the pair of calls starting from a single
absent candidate file, and the no-write case on a readable file already
holding the differently-phrased export line. -/
theorem ensureUserPath_idempotent_witness :
    (ensureUserPath (ensureUserPath [(⟨false, false, false, []⟩ : FileState)]).2).2 =
        (ensureUserPath [(⟨false, false, false, []⟩ : FileState)]).2 ∧
      (ensureUserPath [(⟨true, true, true, altPathLine⟩ : FileState)]).2 =
        [(⟨true, true, true, altPathLine⟩ : FileState)] :=
  ⟨ensureUserPath_idempotent_and_equiv.1 _ (by decide),
   ensureUserPath_idempotent_and_equiv.2 _ ⟨true, true, true, altPathLine⟩ (by simp) rfl rfl
     ⟨altPathLine, by decide, by decide⟩⟩

/-! ## Claim C5: cleanup of the system-path staging file -/

/-- C5 counterexample: when the write to the just-created staging file
fails, `ensureSystemPath` closes the file and returns the error without
removing it — a failure return on which the created temporary file
remains on disk. -/
theorem ensureSystemPath_write_failure_leaks :
    (ensureSystemPath false ⟨true, false, true, true⟩).1 = Except.error (str "write temp file") ∧
      (ensureSystemPath false ⟨true, false, true, true⟩).2 = true := by
  exact ⟨rfl, rfl⟩

/-- C5 (amended): once the staging file is created and its content
written successfully, it is removed on every exit path — success of the
primary install strategy, success of the fallback append, and the final
failure — and no staging file exists when creation itself fails; only
the early write-failure return leaves the created file behind. -/
theorem ensureSystemPath_cleanup (darwin : Bool) (e : SysEnv) :
    (e.writeOk = true → (ensureSystemPath darwin e).2 = false) ∧
    (e.createTempOk = false → (ensureSystemPath darwin e).2 = false) := by
  unfold ensureSystemPath
  constructor <;> intro h <;> split_ifs <;> simp_all

/-- Witness for the C5 theorem: both strategies failing with a
successful write still removes the staging file. -/
theorem ensureSystemPath_cleanup_witness :
    (ensureSystemPath false ⟨true, true, false, false⟩).2 = false :=
  (ensureSystemPath_cleanup false ⟨true, true, false, false⟩).1 rfl

/-! ## Trace lemmas for the orchestrator segments -/

theorem forall_mem_append_chars {p : Effect → Prop} {l1 l2 : List Effect}
    (h1 : ∀ x ∈ l1, p x) (h2 : ∀ x ∈ l2, p x) : ∀ x ∈ l1 ++ l2, p x := by
  intro x hx
  rcases List.mem_append.mp hx with h | h
  · exact h1 x h
  · exact h2 x h

theorem pathUpdateStep_no_download (f : Flags) (e : Env) :
    ∀ eff ∈ (pathUpdateStep f e).1, isDownload eff = false := by
  unfold pathUpdateStep
  split_ifs <;> simp [isDownload]

theorem installStep_no_download (f : Flags) (e : Env) (url tarPath : List Char)
    (ht : e.tarExists = true) :
    ∀ eff ∈ (installStep f e url tarPath).1, isDownload eff = false := by
  unfold installStep
  rw [if_pos ht]
  dsimp only
  split_ifs
  all_goals
    repeat'
      first
        | exact List.forall_mem_nil _
        | apply forall_mem_append_chars
        | (refine List.forall_mem_cons.mpr ⟨rfl, ?_⟩)
        | exact pathUpdateStep_no_download f e

theorem platformStep_no_download (f : Flags) (e : Env) (version : List Char)
    (ht : e.tarExists = true) :
    ∀ eff ∈ (platformStep f e version).1, isDownload eff = false := by
  unfold platformStep
  cases hrt : resolveTarget e.goos e.goarch with
  | error a => exact List.forall_mem_nil _
  | ok pr =>
    obtain ⟨goos, goarch⟩ := pr
    dsimp only
    split_ifs
    all_goals
      repeat'
        first
          | exact List.forall_mem_nil _
          | apply forall_mem_append_chars
          | (refine List.forall_mem_cons.mpr ⟨rfl, ?_⟩)
          | exact installStep_no_download f e _ _ ht

theorem resolveVersionStep_no_download (f : Flags) (e : Env) (vTrace : List Effect)
    (vOpt : Option (List Char)) (hrv : resolveVersionStep f e = (vTrace, vOpt)) :
    ∀ eff ∈ vTrace, isDownload eff = false := by
  unfold resolveVersionStep at hrv
  by_cases hv : trimSpace f.version = []
  · rw [if_pos hv] at hrv
    cases hrv
    simp [isDownload]
  · rw [if_neg hv] at hrv
    cases hrv
    simp

theorem mainRun_no_download (f : Flags) (e : Env) (ht : e.tarExists = true) :
    ∀ eff ∈ (mainRun f e).1, isDownload eff = false := by
  unfold mainRun
  rcases hrv : resolveVersionStep f e with ⟨vTrace, vOpt⟩
  have hvt := resolveVersionStep_no_download f e vTrace vOpt hrv
  cases vOpt with
  | none => exact hvt
  | some version =>
    dsimp only
    by_cases hinst : e.installed = some version
    · rw [if_pos hinst]
      exact forall_mem_append_chars hvt (by simp [isDownload])
    · rw [if_neg hinst]
      exact forall_mem_append_chars hvt
        (List.forall_mem_cons.mpr ⟨rfl, platformStep_no_download f e version ht⟩)

/-- `platformStep` on a rejected platform: no effect is performed and
the run fails with the unsupported-platform context. -/
theorem platformStep_resolveErr (f : Flags) (e : Env) (version : List Char)
    (hr : resolveTargetErrs e.goos e.goarch = true) :
    platformStep f e version = ([], MainResult.fatal (str "resolve target platform")) := by
  unfold platformStep
  cases hrt : resolveTarget e.goos e.goarch with
  | error a => rfl
  | ok pr =>
    exfalso
    unfold resolveTargetErrs at hr
    rw [hrt] at hr
    simp at hr

/-! ## Claims C3, C6, C10: orchestrator frame and ordering properties -/

/-- Dry-run frame of the platform-dependent segment: the only possible
mutation is the download-directory creation, and when the segment ends
in the dry-run result the plan has been printed. -/
theorem platformStep_dryRun_frame (f : Flags) (e : Env) (version : List Char)
    (hd : f.dryRun = true) :
    (∀ eff ∈ (platformStep f e version).1, isMutation eff = true → isMkdir eff = true) ∧
    ((platformStep f e version).2 = MainResult.dryRun →
      (platformStep f e version).1.any isPlanPrint = true) := by
  unfold platformStep
  cases hrt : resolveTarget e.goos e.goarch with
  | error a =>
    refine ⟨by simp, ?_⟩
    intro h
    simp at h
  | ok pr =>
    obtain ⟨goos, goarch⟩ := pr
    dsimp only
    by_cases h1 : e.mkdirOk = false
    · rw [if_pos h1]
      refine ⟨?_, by intro h; simp at h⟩
      intro eff heff
      simp only [List.mem_singleton] at heff
      subst heff
      intro h
      rfl
    · rw [if_neg h1, if_pos hd]
      refine ⟨?_, ?_⟩
      · intro eff heff
        simp only [List.mem_append, List.mem_singleton] at heff
        rcases heff with h3 | h3 <;> subst h3
        · intro h
          rfl
        · intro h
          simp [isMutation] at h
      · intro h
        simp [isPlanPrint]

theorem mainRun_dryRun_frame (f : Flags) (e : Env) (hd : f.dryRun = true) :
    (∀ eff ∈ (mainRun f e).1, isMutation eff = true → isMkdir eff = true) ∧
    ((mainRun f e).2 = MainResult.dryRun → (mainRun f e).1.any isPlanPrint = true) := by
  unfold mainRun
  rcases hrv : resolveVersionStep f e with ⟨vTrace, vOpt⟩
  have hvt : vTrace = [Effect.fetchLatest] ∨ vTrace = [] := by
    unfold resolveVersionStep at hrv
    by_cases hv : trimSpace f.version = []
    · rw [if_pos hv] at hrv
      cases hrv
      exact Or.inl rfl
    · rw [if_neg hv] at hrv
      cases hrv
      exact Or.inr rfl
  have hvm : ∀ eff ∈ vTrace, isMutation eff = true → isMkdir eff = true := by
    rcases hvt with rfl | rfl
    · intro eff heff
      simp only [List.mem_singleton] at heff
      subst heff
      intro h
      simp [isMutation] at h
    · simp
  cases vOpt with
  | none =>
    refine ⟨hvm, ?_⟩
    intro h
    simp at h
  | some version =>
    dsimp only
    by_cases hinst : e.installed = some version
    · rw [if_pos hinst]
      refine ⟨?_, by intro h; simp at h⟩
      apply forall_mem_append_chars hvm
      intro eff heff
      simp only [List.mem_singleton] at heff
      subst heff
      intro h
      simp [isMutation] at h
    · rw [if_neg hinst]
      dsimp only
      constructor
      · apply forall_mem_append_chars hvm
        refine List.forall_mem_cons.mpr ⟨?_, (platformStep_dryRun_frame f e version hd).1⟩
        intro h
        simp [isMutation] at h
      · intro h
        have hp := (platformStep_dryRun_frame f e version hd).2 h
        simp only [List.any_append, List.any_cons, Bool.or_eq_true]
        right
        right
        exact hp

/-- C6 (amended): on an unsupported platform, unless the up-to-date
check exits first, the run fails with the unsupported-platform error;
on the user-supplied-version path no network call at all precedes the
failure, while on the fetch-latest path the metadata fetch has already
happened, and in neither path is the archive download reached. -/
theorem mainRun_unsupported_platform (f : Flags) (e : Env)
    (hr : resolveTargetErrs e.goos e.goarch = true) :
    (trimSpace f.version ≠ [] → e.installed ≠ some (cleanVersionInput f.version) →
      (mainRun f e).2 = MainResult.fatal (str "resolve target platform") ∧
        ∀ eff ∈ (mainRun f e).1, isNetwork eff = false) ∧
    (∀ v, trimSpace f.version = [] → e.latest = some v → e.installed ≠ some v →
      (mainRun f e).2 = MainResult.fatal (str "resolve target platform") ∧
        ∀ eff ∈ (mainRun f e).1, isDownload eff = false) := by
  constructor
  · intro hv hinst
    have hrv : resolveVersionStep f e = ([], some (cleanVersionInput f.version)) := by
      unfold resolveVersionStep
      rw [if_neg hv]
    unfold mainRun
    rw [hrv]
    dsimp only
    rw [if_neg hinst, platformStep_resolveErr f e _ hr]
    exact ⟨rfl, by simp [isNetwork]⟩
  · intro v hv hl hinst
    have hrv : resolveVersionStep f e = ([Effect.fetchLatest], some v) := by
      unfold resolveVersionStep
      rw [if_pos hv, hl]
    unfold mainRun
    rw [hrv]
    dsimp only
    rw [if_neg hinst, platformStep_resolveErr f e _ hr]
    refine ⟨rfl, ?_⟩
    intro eff heff
    simp at heff
    rcases heff with rfl | rfl <;> rfl

/-! Concrete flag and environment values used by counterexamples and
witnesses. -/

def flagsDry : Flags := ⟨str "go1.25.1", true, false, false, str "/tmp/dl"⟩

def envFreshDir : Env :=
  ⟨none, none, str "linux", str "amd64", str "/tmp", true, false, false, true, true, true,
    true, true⟩

def envUpToDate : Env :=
  ⟨none, some (str "go1.25.1"), str "linux", str "amd64", str "/tmp", true, false, false,
    true, true, true, true, true⟩

def flagsFetch : Flags := ⟨[], false, false, false, []⟩

def flagsUser : Flags := ⟨str "go1.25.1", false, false, false, []⟩

def envRiscv : Env :=
  ⟨some (str "go1.25.1"), none, str "linux", str "riscv64", str "/tmp", true, true, false,
    true, true, true, true, true⟩

def envRiscvUpToDate : Env :=
  ⟨none, some (str "go1.25.1"), str "linux", str "riscv64", str "/tmp", true, true, false,
    true, true, true, true, true⟩

def envTarPresent : Env :=
  ⟨none, none, str "linux", str "amd64", str "/tmp", true, true, true, true, true, true,
    true, true⟩

/-- C3 counterexample: with the dry-run flag set and the download
directory absent, the run ends in the dry-run result yet the trace holds
a filesystem mutation (the `os.MkdirAll` call creates the directory
before the dry-run check); and with the dry-run flag set but the
installed version matching the target, the run exits up-to-date without
printing any plan. -/
theorem mainRun_dryRun_counterexample :
    (mainRun flagsDry envFreshDir).2 = MainResult.dryRun ∧
      (mainRun flagsDry envFreshDir).1.any isMutation = true ∧
      (mainRun flagsDry envUpToDate).2 = MainResult.upToDate ∧
      (mainRun flagsDry envUpToDate).1.any isPlanPrint = false := by
  exact ⟨by decide, by decide, by decide, by decide⟩

/-- C3 (amended): with the dry-run flag set, the only filesystem
mutation the run can perform is creating the download directory, and
whenever the run reaches the dry-run exit it has printed the itemized
plan. -/
theorem mainRun_dryRun_frame_claim (f : Flags) (e : Env) (hd : f.dryRun = true) :
    (∀ eff ∈ (mainRun f e).1, isMutation eff = true → isMkdir eff = true) ∧
    ((mainRun f e).2 = MainResult.dryRun → (mainRun f e).1.any isPlanPrint = true) :=
  mainRun_dryRun_frame f e hd

/-- Witness for the C3 theorem at a concrete dry run. -/
theorem mainRun_dryRun_frame_witness :
    (∀ eff ∈ (mainRun flagsDry envFreshDir).1, isMutation eff = true → isMkdir eff = true) ∧
      (mainRun flagsDry envFreshDir).1.any isPlanPrint = true :=
  ⟨(mainRun_dryRun_frame_claim flagsDry envFreshDir rfl).1,
   (mainRun_dryRun_frame_claim flagsDry envFreshDir rfl).2 (by decide)⟩

/-- C6 counterexample: on the fetch-latest path with an unsupported
architecture, the run does fail with the unsupported-platform error but
the latest-version network fetch has already been performed, so it does
not fail before any network call; and with a user-supplied version
matching the installed one on an unsupported platform, the run exits
up-to-date and never fails at all. -/
theorem mainRun_unsupported_counterexample :
    (mainRun flagsFetch envRiscv).2 = MainResult.fatal (str "resolve target platform") ∧
      (mainRun flagsFetch envRiscv).1.any isNetwork = true ∧
      (mainRun flagsUser envRiscvUpToDate).2 = MainResult.upToDate := by
  exact ⟨by decide, by decide, by decide⟩

/-- Witness for the C6 theorem on a concrete unsupported architecture
with a user-supplied version. -/
theorem mainRun_unsupported_witness :
    (mainRun flagsUser envRiscv).2 = MainResult.fatal (str "resolve target platform") ∧
      ∀ eff ∈ (mainRun flagsUser envRiscv).1, isNetwork eff = false :=
  (mainRun_unsupported_platform flagsUser envRiscv (by decide)).1 (by decide) (by decide)

/-- C10: when the destination file is created but the HTTP status is not
200, `downloadFile` returns an error while the empty destination file
remains on disk; and whenever a file exists at the archive path the
orchestrator performs no download, reusing the existing file. -/
theorem downloadFile_non200_leftover :
    (∀ d : DlEnv, d.createOk = true → d.reqOk = true → d.connOk = true → d.status ≠ 200 →
        (downloadFile d).1 = Except.error (str "download failed: non-200 status") ∧
          (downloadFile d).2 = some []) ∧
    (∀ f e, e.tarExists = true → ∀ eff ∈ (mainRun f e).1, isDownload eff = false) := by
  constructor
  · intro d h1 h2 h3 h4
    unfold downloadFile
    rw [if_neg (by simp [h1]), if_neg (by simp [h2]), if_neg (by simp [h3]), if_pos h4]
    exact ⟨rfl, rfl⟩
  · intro f e ht
    exact mainRun_no_download f e ht

/-- Witness for the C10 theorem: a 404 download and a run with the
archive already present. -/
theorem downloadFile_non200_leftover_witness :
    ((downloadFile ⟨true, true, true, 404, true, [], []⟩).1 =
        Except.error (str "download failed: non-200 status") ∧
      (downloadFile ⟨true, true, true, 404, true, [], []⟩).2 = some []) ∧
      ∀ eff ∈ (mainRun flagsUser envTarPresent).1, isDownload eff = false :=
  ⟨downloadFile_non200_leftover.1 ⟨true, true, true, 404, true, [], []⟩ rfl rfl rfl
      (by decide),
   downloadFile_non200_leftover.2 flagsUser envTarPresent rfl⟩
